import Mathlib

/-!
Verification of the rxRust reactive-stream core against its specification.

The Rust source is shallowly embedded: each observer method becomes a Lean
function from an explicit state to a new state together with the list of
events it delivers to the wrapped (downstream) observer.  Delivered events
are recorded in order, so temporal claims become claims about the shape of
the produced event lists.
-/

namespace RxRust

open scoped List

/-- An event delivered to a downstream observer: one invocation of its
`next`, `error` or `complete` callback (`Observer` trait methods). -/
inductive Event (α ε : Type) where
  | next (v : α)
  | error (e : ε)
  | complete
deriving DecidableEq, Repr

/-- Whether an event is a terminal delivery (`error` or `complete`). -/
def Event.isTerminal : Event α ε → Bool
  | .next _ => false
  | .error _ => true
  | .complete => true

/-- The values carried by the `next` events of a trace, in order. -/
def nextValues (tr : List (Event α ε)) : List α :=
  tr.filterMap fun e => match e with
    | .next v => some v
    | _ => none

/-- Number of terminal deliveries in a trace. -/
def countTerminals (tr : List (Event α ε)) : Nat :=
  (tr.filter Event.isTerminal).length

/-- True when no event of the trace is terminal. -/
def noTerminal (tr : List (Event α ε)) : Bool :=
  tr.all fun e => !e.isTerminal

/-- True when every terminal event of the trace is its last element, i.e.
nothing is delivered after a terminal delivery. -/
def terminalLast : List (Event α ε) → Bool
  | [] => true
  | e :: rest => (rest.isEmpty || !e.isTerminal) && terminalLast rest

/-- A call made on a `Subscriber` through its `Observer` implementation
(`src/subscriber.rs`, `impl Observer for Subscriber`). -/
inductive ObserverCall (α ε : Type) where
  | next (v : α)
  | error (e : ε)
  | complete
deriving DecidableEq, Repr

/-- A primitive action performed by a `Subscriber` method body: deliver an
event to the owned observer, or close the owned subscription
(`unsubscribe`).  Keeping the actions as a list preserves the order in
which the source performs them. -/
inductive SubscriberAction (α ε : Type) where
  | deliver (ev : Event α ε)
  | close
deriving DecidableEq, Repr

/-- Body of `Subscriber::next` (`src/subscriber.rs`): forwards `v` to the
observer only when the owned subscription is not closed. -/
def subscriber_next_actions (closed : Bool) (v : α) :
    List (SubscriberAction α ε) :=
  if closed then [] else [SubscriberAction.deliver (Event.next v)]

/-- Body of `Subscriber::complete`: when the subscription is not closed,
forward `complete` to the observer and then unsubscribe. -/
def subscriber_complete_actions (closed : Bool) :
    List (SubscriberAction α ε) :=
  if closed then []
  else [SubscriberAction.deliver Event.complete, SubscriberAction.close]

/-- Body of `Subscriber::error`: when the subscription is not closed,
forward the error to the observer and then unsubscribe. -/
def subscriber_error_actions (closed : Bool) (e : ε) :
    List (SubscriberAction α ε) :=
  if closed then []
  else [SubscriberAction.deliver (Event.error e), SubscriberAction.close]

/-- Modelled from the spec: a Subscription (`LocalSubscription` /
`SharedSubscription` are not under `src/`) is a one-way `Active`/`Closed`
flag — `unsubscribe` moves it to `Closed`, `is_closed` reads it.  Running a
list of subscriber actions applies `close` to the flag and collects the
delivered events in order. -/
def applyActions : Bool → List (SubscriberAction α ε) →
    Bool × List (Event α ε)
  | b, [] => (b, [])
  | b, SubscriberAction.deliver ev :: rest =>
      let r := applyActions b rest
      (r.1, ev :: r.2)
  | _, SubscriberAction.close :: rest => applyActions true rest

/-- One call on a `Subscriber`: dispatch to the corresponding method body
and run its actions against the subscription flag. -/
def subscriberCall (closed : Bool) :
    ObserverCall α ε → Bool × List (Event α ε)
  | .next v => applyActions closed (subscriber_next_actions closed v)
  | .error e => applyActions closed (subscriber_error_actions closed e)
  | .complete => applyActions closed (subscriber_complete_actions closed)

/-- Run a whole sequence of calls on a `Subscriber`, starting from a given
subscription flag; returns the final flag and the concatenated trace of
events delivered to the wrapped observer. -/
def subscriberRun (closed : Bool) :
    List (ObserverCall α ε) → Bool × List (Event α ε)
  | [] => (closed, [])
  | c :: rest =>
      let r := subscriberCall closed c
      let r2 := subscriberRun r.1 rest
      (r2.1, r.2 ++ r2.2)

/-- The tri-state control signal returned by a `next` callback to its
driving source (`src/subscribable.rs`): continue, stop early with a
synthesized completion, or propagate an error. -/
inductive OState (E : Type) where
  | Next
  | Complete
  | Err (e : E)
deriving DecidableEq, Repr

/-- Modelled from the spec: `RxReturn`, the control signal used by
`first.rs`'s `subscribe_return_state` signature, is not defined under
`src/`; per the spec it is the same tri-state continue / stop-early /
propagate-error signal as `OState`. -/
abbrev RxReturn : Type → Type := OState

/-- Terminal behavior of a driving source: it completes, it errors, or it
stops emitting without any terminal event. -/
inductive SourceTerminal (E : Type) where
  | completes
  | errs (e : E)
  | never
deriving DecidableEq, Repr

/-- Modelled from the spec: how a root source drives the
`subscribe_return_state` protocol (the root observable implementations are
not under `src/`).  It feeds its items to the `next` callback in order; a
returned `Complete` stops the iteration and invokes the `complete`
callback once (the stop-early operator thereby synthesizes the single
completion); a returned `Err` invokes the `error` callback; when the items
are exhausted the source's own terminal behavior decides which callback
runs.  Callbacks report the events they deliver downstream. -/
def driveSource {σ α E : Type}
    (onNext : σ → α → σ × OState E × List (Event α E))
    (onError : σ → E → List (Event α E))
    (onComplete : σ → List (Event α E)) :
    σ → List α → SourceTerminal E → List (Event α E)
  | s, [], .completes => onComplete s
  | s, [], .errs e => onError s e
  | _, [], .never => []
  | s, v :: rest, t =>
      let r := onNext s v
      match r.2.1 with
      | OState.Next => r.2.2 ++ driveSource onNext onError onComplete r.1 rest t
      | OState.Complete => r.2.2 ++ onComplete r.1
      | OState.Err e => r.2.2 ++ onError r.1 e

/-- The `next` closure installed by `take`'s `subscribe_source`
(`src/ops/take.rs`): the state is the `count` cell; `dnext` is the
downstream `next` callback, whose invocation on `v` is recorded as a
delivered `next v` event. -/
def takeOnNext (total : Nat) (dnext : α → OState E) (count : Nat)
    (v : α) : Nat × OState E × List (Event α E) :=
  if count < total then
    let c := count + 1
    let os := dnext v
    (c,
      (match os with
        | OState.Next => if c = total then OState.Complete else os
        | _ => os),
      [Event.next v])
  else (count, OState.Complete, [])

/-- Events a plain terminal consumer delivers for a source terminal. -/
def termEvents : SourceTerminal E → List (Event α E)
  | .completes => [Event.complete]
  | .errs e => [Event.error e]
  | .never => []

/-- Run of `take(total)` subscribed with a plain downstream consumer (its `next`
always answers `OState::Next`, and its `error`/`complete` callbacks are
the final consumer), driven by a source emitting `items` with terminal
behavior `t`.  Returns the downstream delivery trace. -/
def takeRun (total : Nat) (items : List α) (t : SourceTerminal E) :
    List (Event α E) :=
  driveSource (takeOnNext total fun _ => OState.Next)
    (fun _ e => [Event.error e]) (fun _ => [Event.complete]) 0 items t

/-- The `next` closure `FirstOrOp::subscribe_return_state`
(`src/ops/first.rs`) passes upstream: store `true` into `passed`, then
invoke the downstream `next` callback and forward its control signal. -/
def firstOrOnNext (dnext : α → RxReturn E) (_passed : Bool) (v : α) :
    Bool × RxReturn E × List (Event α E) :=
  (true, dnext v, [Event.next v])

/-- The `complete` closure `FirstOrOp::subscribe_return_state` passes
upstream: if `passed` was never set, invoke the downstream `next` callback
with the default value, then invoke the downstream `complete` callback
(present here). -/
def firstOrOnComplete (default : α) (passed : Bool) :
    List (Event α E) :=
  (if passed then [] else [Event.next default]) ++ [Event.complete]

/-- Run of `FirstOrOp { default, passed: false }` subscribed with a plain
downstream consumer and driven by a source emitting `items` with terminal
behavior `t`.  The upstream `error` callback is the downstream `error`
callback passed through unchanged, exactly as in the source. -/
def firstOrRun (default : α) (items : List α)
    (t : SourceTerminal E) : List (Event α E) :=
  driveSource (firstOrOnNext fun _ => OState.Next)
    (fun _ e => [Event.error e]) (firstOrOnComplete default) false items t

/-- Struct `NextWhitoutError` (`src/error.rs`): the adapter wrapping an
infallible user closure behind the unified fallible-invocation contract. -/
structure NextWhitoutError (α β : Type) where
  fn : α → β

/-- Method `WithErr::call_with_err` for `NextWhitoutError`: the associated error
type is fixed to unit and the closure's result is always reported as a
success. -/
def NextWhitoutError.call_with_err (n : NextWhitoutError α β) (v : α) :
    Except Unit β :=
  Except.ok (n.fn v)

/-- Leading/trailing behavior of `throttle_time`
(`src/ops/throttle_time.rs`). -/
inductive ThrottleEdge where
  | Tailing
  | Leading
deriving DecidableEq, Repr

/-- State of `InnerThrottleTimeObserver` (`src/ops/throttle_time.rs`).  The
`observer` field is represented by the event lists the methods return (the
invocations they perform on the downstream observer).  Scheduler timer
handles are modelled by the natural numbers `0, 1, 2, …` in creation
order (`nextTimerId` generates the fresh handle `schedule` returns); the
composite `subscription` (a `SharedSubscription`, not under `src/`,
modelled from the spec as an addressable collection of children) is the
list of timer handles currently added to it. -/
structure InnerThrottleTimeObserver (α : Type) where
  edge : ThrottleEdge
  delay : Nat
  trailing_value : Option α
  throttled : Option Nat
  subscription : List Nat
  nextTimerId : Nat
deriving DecidableEq, Repr

/-- Method `ThrottleTimeObserver::next` (`src/ops/throttle_time.rs`): in Tailing
mode overwrite `trailing_value`; when no timer is throttling, schedule one
for `delay` (returning a fresh handle, added to the composite subscription
and stored in `throttled`) and, in Leading mode, emit the value downstream
immediately.  Returns the new state, the downstream events, and the list
of `(handle, delay)` timers started by this call. -/
def throttleNext {α ε : Type} (s : InnerThrottleTimeObserver α)
    (v : α) :
    InnerThrottleTimeObserver α × List (Event α ε) ×
      List (Nat × Nat) :=
  let s1 := if s.edge = ThrottleEdge.Tailing then
      { s with trailing_value := some v } else s
  match s1.throttled with
  | some _ => (s1, [], [])
  | none =>
      let t := s1.nextTimerId
      let s2 := { s1 with
        subscription := s1.subscription ++ [t],
        throttled := some t,
        nextTimerId := t + 1 }
      if s2.edge = ThrottleEdge.Leading then
        (s2, [Event.next v], [(t, s1.delay)])
      else (s2, [], [(t, s1.delay)])

/-- Method `ThrottleTimeObserver::error`: forward the error downstream at once;
no state is touched (in particular `trailing_value` is not cleared). -/
def throttleError (s : InnerThrottleTimeObserver α) (e : ε) :
    InnerThrottleTimeObserver α × List (Event α ε) :=
  (s, [Event.error e])

/-- Method `ThrottleTimeObserver::complete`: take a buffered `trailing_value` and
emit it first if present, then forward `complete` downstream. -/
def throttleComplete {α ε : Type}
    (s : InnerThrottleTimeObserver α) :
    InnerThrottleTimeObserver α × List (Event α ε) :=
  match s.trailing_value with
  | some v => ({ s with trailing_value := none },
      [Event.next v, Event.complete])
  | none => (s, [Event.complete])

/-- The closure `ThrottleTimeObserver::next` schedules, run at timer
expiry: take and emit a buffered `trailing_value` if present; take the
`throttled` handle, unsubscribe it and remove it from the parent composite
subscription. -/
def throttleTimerExpiry {α ε : Type}
    (s : InnerThrottleTimeObserver α) :
    InnerThrottleTimeObserver α × List (Event α ε) :=
  let p : InnerThrottleTimeObserver α × List (Event α ε) :=
    match s.trailing_value with
    | some v => ({ s with trailing_value := none }, [Event.next v])
    | none => (s, [])
  match p.1.throttled with
  | some t => ({ p.1 with
      throttled := none,
      subscription := p.1.subscription.filter fun x => x ≠ t }, p.2)
  | none => (p.1, p.2)

/-- An external stimulus to the shared throttle pipeline: a producer call
on the enclosing `Subscriber`, or the scheduler firing timer `t`. -/
inductive PipeEvent (α ε : Type) where
  | next (v : α)
  | error (e : ε)
  | complete
  | fire (t : Nat)
deriving DecidableEq, Repr

/-- State of the shared throttle pipeline built by `actual_subscribe`: the
inner throttle state plus the closed flag of the subscription chain that
gates the enclosing `Subscriber` (closing it cascades, per the spec, to
every child — including any pending timer handle). -/
structure PipeState (α : Type) where
  inner : InnerThrottleTimeObserver α
  closed : Bool
deriving DecidableEq, Repr

/-- Initial pipeline state as built by `actual_subscribe`: no trailing
value, no pending timer, empty composite, open subscription. -/
def pipeInit (edge : ThrottleEdge) (delay : Nat) : PipeState α :=
  { inner := { edge := edge, delay := delay, trailing_value := none,
               throttled := none, subscription := [], nextTimerId := 0 },
    closed := false }

/-- One atomic pipeline step: producer calls run the `Subscriber` gate and
the throttle method body as one unit (for terminals, the forward and the
cascading unsubscribe together).  Modelled from the spec for the parts not
under `src/`: a cancelled scheduler handle's task body never runs, and
unsubscribing the chain cancels the pending timer, so `fire t` is a no-op
once the chain is closed; it is also a no-op unless `t` is the currently
pending (`throttled`) handle, since every handle fires at most once. -/
def pipeStep (s : PipeState α) :
    PipeEvent α ε → PipeState α × List (Event α ε)
  | .next v =>
      if s.closed then (s, [])
      else
        let r := throttleNext (ε := ε) s.inner v
        ({ s with inner := r.1 }, r.2.1)
  | .error e =>
      if s.closed then (s, [])
      else
        let r := throttleError s.inner e
        ({ inner := r.1, closed := true }, r.2)
  | .complete =>
      if s.closed then (s, [])
      else
        let r := throttleComplete (ε := ε) s.inner
        ({ inner := r.1, closed := true }, r.2)
  | .fire t =>
      if s.closed then (s, [])
      else if s.inner.throttled = some t then
        let r := throttleTimerExpiry (ε := ε) s.inner
        ({ s with inner := r.1 }, r.2)
      else (s, [])

/-- Run the pipeline over a list of stimuli, concatenating the downstream
deliveries. -/
def runPipe (s : PipeState α) :
    List (PipeEvent α ε) → PipeState α × List (Event α ε)
  | [] => (s, [])
  | e :: rest =>
      let r := pipeStep s e
      let r2 := runPipe r.1 rest
      (r2.1, r.2 ++ r2.2)

/-- The values the producer pushed into the pipeline, in order. -/
def producedValues (events : List (PipeEvent α ε)) : List α :=
  events.filterMap fun e => match e with
    | .next v => some v
    | _ => none

/-- A fine-grained pipeline stimulus, at the granularity of the source's
own critical sections.  `Subscriber::error` is two separate atomic
actions: the gated forward (`self.observer.error(err)`, one lock
acquisition of the throttle mutex) and then the cascading
`self.subscription.unsubscribe()`; likewise for `complete`.  The
scheduler's timer callback (`fire`) may acquire the throttle mutex between
them. -/
inductive MicroEvent (α ε : Type) where
  | nextCall (v : α)
  | errForward (e : ε)
  | compForward
  | unsub
  | fire (t : Nat)
deriving DecidableEq, Repr

/-- True for scheduler-originated micro events. -/
def MicroEvent.isFire : MicroEvent α ε → Bool
  | .fire _ => true
  | _ => false

/-- One fine-grained pipeline step; the bodies are the same as in
`pipeStep`, but the terminal forward and the unsubscribe are separate
steps (`unsub` is idempotent, as the spec requires of `unsubscribe`). -/
def microStep (s : PipeState α) :
    MicroEvent α ε → PipeState α × List (Event α ε)
  | .nextCall v =>
      if s.closed then (s, [])
      else
        let r := throttleNext (ε := ε) s.inner v
        ({ s with inner := r.1 }, r.2.1)
  | .errForward e =>
      if s.closed then (s, [])
      else
        let r := throttleError s.inner e
        ({ s with inner := r.1 }, r.2)
  | .compForward =>
      if s.closed then (s, [])
      else
        let r := throttleComplete (ε := ε) s.inner
        ({ s with inner := r.1 }, r.2)
  | .unsub => ({ s with closed := true }, [])
  | .fire t =>
      if s.closed then (s, [])
      else if s.inner.throttled = some t then
        let r := throttleTimerExpiry (ε := ε) s.inner
        ({ s with inner := r.1 }, r.2)
      else (s, [])

/-- Run the fine-grained pipeline over a list of micro stimuli. -/
def runMicro (s : PipeState α) :
    List (MicroEvent α ε) → PipeState α × List (Event α ε)
  | [] => (s, [])
  | e :: rest =>
      let r := microStep s e
      let r2 := runMicro r.1 rest
      (r2.1, r.2 ++ r2.2)

/-- The micro actions a producer call on the enclosing `Subscriber`
performs, in source order: `next` is one gated throttle call; `error` and
`complete` are the gated forward followed by the unsubscribe. -/
def expandCall : ObserverCall α ε → List (MicroEvent α ε)
  | .next v => [MicroEvent.nextCall v]
  | .error e => [MicroEvent.errForward e, MicroEvent.unsub]
  | .complete => [MicroEvent.compForward, MicroEvent.unsub]

/-- Concatenated micro actions of a producer call sequence. -/
def expandCalls : List (ObserverCall α ε) →
    List (MicroEvent α ε)
  | [] => []
  | c :: rest => expandCall c ++ expandCalls rest

/-- Relation `Interleave xs ys zs`: `zs` is an order-preserving interleaving of
`xs` (the producer thread's actions) and `ys` (the scheduler thread's
actions). -/
inductive Interleave : List α → List α → List α → Prop where
  | nil : Interleave [] [] []
  | left : Interleave xs ys zs → Interleave (x :: xs) ys (x :: zs)
  | right : Interleave xs ys zs → Interleave xs (y :: ys) (y :: zs)

theorem subscriberCall_closed {α ε : Type} (c : ObserverCall α ε) :
    subscriberCall true c = (true, []) := by
  cases c <;>
    simp [subscriberCall, subscriber_next_actions,
      subscriber_complete_actions, subscriber_error_actions, applyActions]

theorem subscriberRun_closed {α ε : Type}
    (cs : List (ObserverCall α ε)) :
    subscriberRun true cs = (true, []) := by
  induction cs with
  | nil => rfl
  | cons c rest ih => simp [subscriberRun, subscriberCall_closed, ih]

theorem subscriberRun_append {α ε : Type} (b : Bool)
    (cs cs2 : List (ObserverCall α ε)) :
    subscriberRun b (cs ++ cs2) =
      ((subscriberRun (subscriberRun b cs).1 cs2).1,
        (subscriberRun b cs).2 ++ (subscriberRun (subscriberRun b cs).1 cs2).2) := by
  induction cs generalizing b with
  | nil => simp [subscriberRun]
  | cons c rest ih => simp [subscriberRun, ih]

theorem subscriberRun_spec {α ε : Type}
    (cs : List (ObserverCall α ε)) :
    countTerminals (subscriberRun false cs).2 ≤ 1 ∧
      ((subscriberRun false cs).2.any Event.isTerminal = true →
        (subscriberRun false cs).1 = true) := by
  induction cs with
  | nil => simp [subscriberRun, countTerminals]
  | cons c rest ih =>
      cases c with
      | next v =>
          have hcall : subscriberCall false (ObserverCall.next (ε := ε) v) =
              (false, [Event.next v]) := by
            simp [subscriberCall, subscriber_next_actions, applyActions]
          simpa [subscriberRun, hcall, countTerminals, Event.isTerminal] using ih
      | error e =>
          have hcall : subscriberCall false (ObserverCall.error (α := α) e) =
              (true, [Event.error e]) := by
            simp [subscriberCall, subscriber_error_actions, applyActions]
          simp [subscriberRun, hcall, subscriberRun_closed, countTerminals,
            Event.isTerminal]
      | complete =>
          have hcall : subscriberCall (α := α) (ε := ε) false
              ObserverCall.complete = (true, [Event.complete]) := by
            simp [subscriberCall, subscriber_complete_actions, applyActions]
          simp [subscriberRun, hcall, subscriberRun_closed, countTerminals,
            Event.isTerminal]

/-- C1: for every sequence of calls on a `Subscriber`, at most one
terminal delivery (`error` or `complete`) ever reaches the wrapped
observer, and every call arriving after the first terminal delivery is a
no-op — the wrapped observer's callbacks are not invoked again and the
delivered trace does not change. -/
theorem subscriber_terminal_exclusive {α ε : Type}
    (cs cs2 : List (ObserverCall α ε)) :
    countTerminals (subscriberRun false cs).2 ≤ 1 ∧
      ((subscriberRun false cs).2.any Event.isTerminal = true →
        (subscriberRun false (cs ++ cs2)).2 = (subscriberRun false cs).2) := by
  refine ⟨(subscriberRun_spec cs).1, fun h => ?_⟩
  have hclosed := (subscriberRun_spec cs).2 h
  rw [subscriberRun_append, hclosed, subscriberRun_closed]
  simp

/-- Witness for C1 at a concrete call sequence: a `complete` followed by a
late `next`, `error` and `complete`, none of which is delivered. -/
theorem subscriber_terminal_exclusive_witness :
    countTerminals
        (subscriberRun (α := Nat) (ε := Unit) false
          [ObserverCall.complete]).2 ≤ 1 ∧
      (subscriberRun (α := Nat) (ε := Unit) false
          ([ObserverCall.complete] ++
            [ObserverCall.next 1, ObserverCall.error (),
              ObserverCall.complete])).2 =
        (subscriberRun false [ObserverCall.complete]).2 := by
  have h := subscriber_terminal_exclusive (α := Nat) (ε := Unit)
    [ObserverCall.complete]
    [ObserverCall.next 1, ObserverCall.error (), ObserverCall.complete]
  exact ⟨h.1, h.2 (by decide)⟩

/-- C2: a `Subscriber` forwards `next v` to its owned observer exactly
when its owned subscription is not closed at the time of the call (and
`next` never changes the subscription state); on a `complete` or `error`
call while the subscription is active, the method body first delivers the
terminal to the observer and then closes the subscription — the `deliver`
action precedes the `close` action, and the resulting state is closed with
exactly the terminal delivered. -/
theorem subscriber_forward_then_close {α ε : Type} (closed : Bool)
    (v : α) (e : ε) :
    subscriberCall closed (ObserverCall.next v) =
      (closed, if closed then [] else [Event.next (ε := ε) v]) ∧
    subscriber_complete_actions (α := α) (ε := ε) false =
      [SubscriberAction.deliver Event.complete, SubscriberAction.close] ∧
    subscriber_error_actions (α := α) false e =
      [SubscriberAction.deliver (Event.error e), SubscriberAction.close] ∧
    subscriberCall (α := α) (ε := ε) false ObserverCall.complete =
      (true, [Event.complete]) ∧
    subscriberCall (α := α) false (ObserverCall.error e) =
      (true, [Event.error e]) := by
  cases closed <;>
    simp [subscriberCall, subscriber_next_actions,
      subscriber_complete_actions, subscriber_error_actions, applyActions]

/-- C3: on every `throttle` `next(v)` call — in Tailing mode the trailing
value is overwritten with `v`; when no timer is pending, exactly one timer
for the configured duration is started (its fresh handle becomes the
pending one) and `v` is emitted downstream immediately exactly when the
edge is Leading; when a timer is pending, no timer is started, nothing is
emitted, the pending handle stays, and `v` is only absorbed into the
trailing value in Tailing mode. -/
theorem throttle_next_spec {α ε : Type}
    (s : InnerThrottleTimeObserver α) (v : α) :
    (s.edge = ThrottleEdge.Tailing →
      (throttleNext (ε := ε) s v).1.trailing_value = some v) ∧
    (s.throttled = none →
      (throttleNext (ε := ε) s v).2.2 = [(s.nextTimerId, s.delay)] ∧
      (throttleNext (ε := ε) s v).2.1 =
        (if s.edge = ThrottleEdge.Leading then [Event.next v] else []) ∧
      (throttleNext (ε := ε) s v).1.throttled = some s.nextTimerId) ∧
    (∀ t, s.throttled = some t →
      (throttleNext (ε := ε) s v).2.2 = [] ∧
      (throttleNext (ε := ε) s v).2.1 = [] ∧
      (throttleNext (ε := ε) s v).1.throttled = some t ∧
      (throttleNext (ε := ε) s v).1.trailing_value =
        (if s.edge = ThrottleEdge.Tailing then some v
          else s.trailing_value)) := by
  obtain ⟨edge, delay, tv, th, sub, nid⟩ := s
  cases edge <;> cases th <;> simp [throttleNext]

/-- Witness for C3 at a concrete Tailing-mode state with no pending
timer: the trailing value is overwritten and one timer with the
configured duration is started. -/
theorem throttle_next_spec_witness :
    (throttleNext (ε := Unit)
        (⟨ThrottleEdge.Tailing, 7, none, none, [], 0⟩ :
          InnerThrottleTimeObserver Nat) 5).1.trailing_value = some 5 ∧
      (throttleNext (ε := Unit)
        (⟨ThrottleEdge.Tailing, 7, none, none, [], 0⟩ :
          InnerThrottleTimeObserver Nat) 5).2.2 = [(0, 7)] := by
  have h := throttle_next_spec (ε := Unit)
    (⟨ThrottleEdge.Tailing, 7, none, none, [], 0⟩ :
      InnerThrottleTimeObserver Nat) 5
  exact ⟨h.1 (by decide), (h.2.1 (by decide)).1⟩

/-- C4: `throttle` forwards `error(e)` downstream immediately and
unconditionally — the state (hence any pending window) is untouched and
nothing is buffered; and `complete()` first emits a buffered trailing
value via `next`, if present, and then forwards the completion. -/
theorem throttle_error_complete_spec {α ε : Type}
    (s : InnerThrottleTimeObserver α) (e : ε) :
    throttleError s e = (s, [Event.error e]) ∧
    (throttleComplete (ε := ε) s).2 =
      s.trailing_value.toList.map Event.next ++ [Event.complete] ∧
    (throttleComplete (ε := ε) s).1.trailing_value = none := by
  obtain ⟨edge, delay, tv, th, sub, nid⟩ := s
  cases tv <;> simp [throttleError, throttleComplete]

/-- C5: the timer-expiry callback emits the buffered trailing value (if
present) and clears it, clears the pending-timer handle, and detaches the
expired timer's subscription from the parent composite (the composite is
unchanged when no handle was pending). -/
theorem throttle_timer_expiry_spec {α ε : Type}
    (s : InnerThrottleTimeObserver α) :
    (throttleTimerExpiry (ε := ε) s).2 =
      s.trailing_value.toList.map Event.next ∧
    (throttleTimerExpiry (ε := ε) s).1.trailing_value = none ∧
    (throttleTimerExpiry (ε := ε) s).1.throttled = none ∧
    (∀ t, s.throttled = some t →
      t ∉ (throttleTimerExpiry (ε := ε) s).1.subscription) ∧
    (s.throttled = none →
      (throttleTimerExpiry (ε := ε) s).1.subscription =
        s.subscription) := by
  obtain ⟨edge, delay, tv, th, sub, nid⟩ := s
  cases tv <;> cases th <;> simp [throttleTimerExpiry, List.mem_filter]

/-- Witness for C5 at a concrete state with a buffered value and pending
timer 3: after expiry, handle 3 is no longer in the composite. -/
theorem throttle_timer_expiry_spec_witness :
    (3 : Nat) ∉ (throttleTimerExpiry (ε := Unit)
      (⟨ThrottleEdge.Tailing, 7, some 9, some 3, [3], 4⟩ :
        InnerThrottleTimeObserver Nat)).1.subscription := by
  exact (throttle_timer_expiry_spec
    (⟨ThrottleEdge.Tailing, 7, some 9, some 3, [3], 4⟩ :
      InnerThrottleTimeObserver Nat)).2.2.2.1 3 (by decide)

/-- C9: the adapter for infallible closures always reports success — for
every input, `call_with_err` returns `Ok` of the wrapped closure's result,
with the error type fixed to unit, and never returns an `Err` value. -/
theorem next_whitout_error_spec {α β : Type} (f : α → β) (v : α) :
    (NextWhitoutError.mk f).call_with_err v = Except.ok (f v) ∧
    ∀ e : Unit,
      (NextWhitoutError.mk f).call_with_err v ≠ Except.error e := by
  refine ⟨rfl, fun e h => ?_⟩
  simp [NextWhitoutError.call_with_err] at h

/-- Witness for C9 at a concrete closure and input. -/
theorem next_whitout_error_spec_witness :
    (NextWhitoutError.mk fun n : Nat => n + 1).call_with_err 3 =
      Except.ok 4 ∧
    (NextWhitoutError.mk fun n : Nat => n + 1).call_with_err 3 ≠
      Except.error () := by
  exact ⟨(next_whitout_error_spec _ 3).1, (next_whitout_error_spec _ 3).2 ()⟩

theorem firstOr_drive_passed {α E : Type} (default : α)
    (vs : List α) (t : SourceTerminal E) :
    driveSource (firstOrOnNext fun _ => OState.Next)
      (fun _ e => [Event.error e]) (firstOrOnComplete default) true vs t =
      vs.map Event.next ++ termEvents t := by
  induction vs with
  | nil => cases t <;> simp [driveSource, firstOrOnComplete, termEvents]
  | cons v rest ih => simp [driveSource, firstOrOnNext, ih]

/-- C7: `first_or`'s defaulting operator applied to a source that
completes without emitting delivers exactly `next(default)` then
`complete`; applied to a source that emits at least one item, the `passed`
flag set by that `next` suppresses the default — the downstream trace is
exactly the forwarded items followed by the source's own terminal, with no
default inserted. -/
theorem firstOr_default_spec {α E : Type} (d : α) :
    firstOrRun (E := E) d [] SourceTerminal.completes =
      [Event.next d, Event.complete] ∧
    ∀ (v : α) (vs : List α) (t : SourceTerminal E),
      firstOrRun d (v :: vs) t =
        (v :: vs).map Event.next ++ termEvents t := by
  constructor
  · simp [firstOrRun, driveSource, firstOrOnComplete]
  · intro v vs t
    simp [firstOrRun, driveSource, firstOrOnNext, firstOr_drive_passed]

/-- C10: when the source of the defaulting operator terminates with an
error, the default is never emitted — the default emission is attached
only to the completion callback and the error callback is passed through
unchanged; in particular an erroring empty source yields zero `next`
deliveries followed by exactly the error. -/
theorem firstOr_error_passthrough {α E : Type} (d : α) (e : E)
    (items : List α) :
    firstOrRun d items (SourceTerminal.errs e) =
      items.map Event.next ++ [Event.error e] := by
  cases items with
  | nil => simp [firstOrRun, driveSource]
  | cons v vs =>
      simp [firstOrRun, driveSource, firstOrOnNext, firstOr_drive_passed,
        termEvents]

theorem take_drive_saturated {α E : Type} (total c : Nat)
    (items : List α) (t : SourceTerminal E) (h : total ≤ c) :
    driveSource (takeOnNext total fun _ => OState.Next)
      (fun _ e => [Event.error e]) (fun _ => [Event.complete]) c items t =
      (if items.isEmpty then termEvents t else [Event.complete]) := by
  cases items with
  | nil => cases t <;> simp [driveSource, termEvents]
  | cons v rest =>
      have hnc : ¬ c < total := by omega
      simp [driveSource, takeOnNext, hnc]

theorem take_drive_spec {α E : Type} (total : Nat) (items : List α)
    (c : Nat) (t : SourceTerminal E) (h : c < total) :
    driveSource (takeOnNext total fun _ => OState.Next)
      (fun _ e => [Event.error e]) (fun _ => [Event.complete]) c items t =
      (items.take (total - c)).map Event.next ++
        (if total - c ≤ items.length then [Event.complete]
          else termEvents t) := by
  induction items generalizing c with
  | nil =>
      have h0 : ¬ total - c ≤ 0 := by omega
      cases t <;> simp [driveSource, termEvents, h0]
  | cons v rest ih =>
      by_cases hc : c + 1 = total
      · have h1 : total - c = 1 := by omega
        simp [driveSource, takeOnNext, h, hc, h1]
      · have h2 : c + 1 < total := by omega
        have h3 : total - c = (total - (c + 1)) + 1 := by omega
        have h4 : (total - c ≤ rest.length + 1) =
            (total - (c + 1) ≤ rest.length) := by
          apply propext; omega
        simp [driveSource, takeOnNext, h, hc, ih (c + 1) h2, h3, h4]

/-- C6 counterexample: the claim, as stated, requires exactly one
`complete` for every source, regardless of whether the upstream itself
completes.  With bound 5 and a source that emits only 3 items and never
terminates, `take` delivers the 3 items and no `complete` at all. -/
theorem take_bounded_cutoff_cex :
    ¬ (∀ (total : Nat) (items : List Nat) (t : SourceTerminal Unit),
        takeRun total items t =
          (items.take (min total items.length)).map Event.next ++
            [Event.complete]) := by
  intro h
  have h5 := h 5 [1, 2, 3] SourceTerminal.never
  exact absurd h5 (by decide)

/-- C6 (amended): `take(total)` delivers exactly `min(total, m)` `next`
items; when the source supplies enough items to reach the cutoff
(`m ≥ max(total, 1)`), the operator itself synthesizes exactly one
`complete` via the `Complete` control state, regardless of the upstream's
own terminal; otherwise all `m` items are forwarded and the downstream
terminal is exactly the upstream's own (a `complete` only if the upstream
completes). -/
theorem take_bounded_cutoff_spec {α E : Type} (total : Nat)
    (items : List α) (t : SourceTerminal E) :
    takeRun total items t =
      (items.take total).map Event.next ++
        (if max total 1 ≤ items.length then [Event.complete]
          else termEvents t) ∧
    (items.take total).length = min total items.length := by
  constructor
  · rcases Nat.eq_zero_or_pos total with h0 | hpos
    · subst h0
      have := take_drive_saturated (α := α) (E := E) 0 0 items t
        (Nat.le_refl 0)
      rw [takeRun, this]
      cases items <;> simp [termEvents]
    · have hmax : max total 1 = total := Nat.max_eq_left hpos
      rw [takeRun, take_drive_spec total items 0 t hpos]
      simp [hmax]
  · simp [List.length_take]

theorem nextValues_append (a b : List (Event α ε)) :
    nextValues (a ++ b) = nextValues a ++ nextValues b := by
  simp [nextValues]

theorem nextValues_map_next {α ε : Type} (l : List α) :
    nextValues (l.map (Event.next (ε := ε))) = l := by
  induction l <;> simp_all [nextValues]

theorem noTerminal_map_next {α ε : Type} (l : List α) :
    noTerminal (l.map (Event.next (ε := ε))) = true := by
  induction l <;> simp_all [noTerminal, Event.isTerminal]

theorem terminalLast_append {α ε : Type} (a b : List (Event α ε))
    (h : noTerminal a = true) :
    terminalLast (a ++ b) = terminalLast b := by
  induction a with
  | nil => rfl
  | cons x a ih =>
      simp only [noTerminal, List.all_cons, Bool.and_eq_true] at h
      have ha : noTerminal a = true := h.2
      simp [terminalLast, h.1, ih ha]

theorem throttleNext_inv {α ε : Type}
    (i : InnerThrottleTimeObserver α) (v : α) :
    (throttleNext (ε := ε) i v).1.edge = i.edge ∧
    (i.edge = ThrottleEdge.Leading →
      (throttleNext (ε := ε) i v).1.trailing_value =
        i.trailing_value) := by
  obtain ⟨edge, delay, tv, th, sub, nid⟩ := i
  cases edge <;> cases th <;> simp [throttleNext]

theorem throttleNext_out_noTerminal {α ε : Type}
    (i : InnerThrottleTimeObserver α) (v : α) :
    noTerminal (throttleNext (ε := ε) i v).2.1 = true := by
  obtain ⟨edge, delay, tv, th, sub, nid⟩ := i
  cases edge <;> cases th <;>
    simp [throttleNext, noTerminal, Event.isTerminal]

theorem throttleComplete_out {α ε : Type}
    (i : InnerThrottleTimeObserver α) :
    (throttleComplete (ε := ε) i).2 =
      i.trailing_value.toList.map Event.next ++ [Event.complete] ∧
    (throttleComplete (ε := ε) i).1.trailing_value = none ∧
    (throttleComplete (ε := ε) i).1.edge = i.edge := by
  obtain ⟨edge, delay, tv, th, sub, nid⟩ := i
  cases tv <;> simp [throttleComplete]

theorem throttleTimerExpiry_out {α ε : Type}
    (i : InnerThrottleTimeObserver α) :
    (throttleTimerExpiry (ε := ε) i).2 =
      i.trailing_value.toList.map Event.next ∧
    (throttleTimerExpiry (ε := ε) i).1.trailing_value = none ∧
    (throttleTimerExpiry (ε := ε) i).1.edge = i.edge := by
  obtain ⟨edge, delay, tv, th, sub, nid⟩ := i
  cases tv <;> cases th <;> simp [throttleTimerExpiry]

theorem pipeStep_closed {α ε : Type} (s : PipeState α)
    (e : PipeEvent α ε) (h : s.closed = true) :
    pipeStep s e = (s, []) := by
  cases e <;> simp [pipeStep, h]

theorem runPipe_closed {α ε : Type} (s : PipeState α)
    (evs : List (PipeEvent α ε)) (h : s.closed = true) :
    runPipe s evs = (s, []) := by
  induction evs with
  | nil => rfl
  | cons e rest ih => simp [runPipe, pipeStep_closed _ _ h, ih]

theorem runPipe_terminalLast {α ε : Type}
    (evs : List (PipeEvent α ε)) (s : PipeState α)
    (h : s.closed = false) :
    terminalLast (runPipe s evs).2 = true := by
  induction evs generalizing s with
  | nil => rfl
  | cons e rest ih =>
      cases e with
      | next v =>
          have hstep : pipeStep (ε := ε) s (PipeEvent.next v) =
              ({ s with inner := (throttleNext (ε := ε) s.inner v).1 },
                (throttleNext (ε := ε) s.inner v).2.1) := by
            simp [pipeStep, h]
          simp only [runPipe, hstep]
          rw [terminalLast_append _ _ (throttleNext_out_noTerminal _ _)]
          exact ih _ (by simpa using h)
      | error e' =>
          have hstep : pipeStep s (PipeEvent.error e') =
              ({ inner := s.inner, closed := true },
                [Event.error e']) := by
            simp [pipeStep, h, throttleError]
          simp only [runPipe, hstep]
          rw [runPipe_closed _ rest rfl]
          simp [terminalLast, Event.isTerminal]
      | complete =>
          have hstep : pipeStep (ε := ε) s PipeEvent.complete =
              ({ inner := (throttleComplete (ε := ε) s.inner).1,
                  closed := true },
                (throttleComplete (ε := ε) s.inner).2) := by
            simp [pipeStep, h]
          simp only [runPipe, hstep]
          rw [runPipe_closed _ rest rfl]
          rw [(throttleComplete_out (ε := ε) s.inner).1]
          rw [List.append_nil,
            terminalLast_append _ _ (noTerminal_map_next _)]
          simp [terminalLast, Event.isTerminal]
      | fire t =>
          by_cases hf : s.inner.throttled = some t
          · have hstep : pipeStep (ε := ε) s (PipeEvent.fire t) =
                ({ s with
                    inner := (throttleTimerExpiry (ε := ε) s.inner).1 },
                  (throttleTimerExpiry (ε := ε) s.inner).2) := by
              simp [pipeStep, h, hf]
            simp only [runPipe, hstep]
            have hnt : noTerminal
                (throttleTimerExpiry (ε := ε) s.inner).2 = true := by
              rw [(throttleTimerExpiry_out (ε := ε) s.inner).1]
              exact noTerminal_map_next _
            rw [terminalLast_append _ _ hnt]
            exact ih _ (by simpa using h)
          · have hstep : pipeStep (ε := ε) s (PipeEvent.fire t) =
                (s, []) := by
              simp [pipeStep, h, hf]
            simp only [runPipe, hstep]
            simpa using ih s h

theorem throttleNext_sublist_core {α ε : Type}
    (i : InnerThrottleTimeObserver α) (v : α)
    (hL : i.edge = ThrottleEdge.Leading → i.trailing_value = none) :
    nextValues (throttleNext (ε := ε) i v).2.1 ++
      (throttleNext (ε := ε) i v).1.trailing_value.toList <+
      i.trailing_value.toList ++ [v] := by
  obtain ⟨edge, delay, tv, th, sub, nid⟩ := i
  cases edge with
  | Tailing =>
      cases th <;> simp [throttleNext, nextValues]
  | Leading =>
      have htv : tv = none := hL rfl
      subst htv
      cases th <;> simp [throttleNext, nextValues]

theorem runPipe_sublist {α ε : Type}
    (evs : List (PipeEvent α ε)) (s : PipeState α)
    (hL : s.inner.edge = ThrottleEdge.Leading →
      s.inner.trailing_value = none) :
    nextValues (runPipe s evs).2 ++
      (runPipe s evs).1.inner.trailing_value.toList <+
      s.inner.trailing_value.toList ++ producedValues evs := by
  induction evs generalizing s with
  | nil => simp [runPipe, nextValues, producedValues]
  | cons e rest ih =>
      by_cases hc : s.closed = true
      · rw [runPipe_closed _ _ hc]
        simpa [nextValues] using
          List.sublist_append_left s.inner.trailing_value.toList
            (producedValues (e :: rest))
      · replace hc : s.closed = false := by simpa using hc
        cases e with
        | next v =>
            have hstep : pipeStep (ε := ε) s (PipeEvent.next v) =
                ({ s with
                    inner := (throttleNext (ε := ε) s.inner v).1 },
                  (throttleNext (ε := ε) s.inner v).2.1) := by
              simp [pipeStep, hc]
            have hinv := throttleNext_inv (ε := ε) s.inner v
            have hL1 : (throttleNext (ε := ε) s.inner v).1.edge =
                ThrottleEdge.Leading →
                (throttleNext (ε := ε) s.inner v).1.trailing_value =
                  none := by
              intro hE
              rw [hinv.2 (hinv.1 ▸ hE)]
              exact hL (hinv.1 ▸ hE)
            have ihh := ih
              { s with inner := (throttleNext (ε := ε) s.inner v).1 }
              hL1
            have hcore := throttleNext_sublist_core (ε := ε) s.inner v hL
            simp only [runPipe, hstep, nextValues_append, producedValues,
              List.filterMap_cons] at *
            have st1 := (ihh.append_left
              (nextValues (throttleNext (ε := ε) s.inner v).2.1))
            have st2 := hcore.append_right
              (rest.filterMap fun e => match e with
                | PipeEvent.next v => some v
                | _ => none)
            refine List.Sublist.trans ?_ (List.Sublist.trans st2 ?_)
            · simpa [List.append_assoc] using st1
            · simp [List.append_assoc]
        | error e' =>
            have hstep : pipeStep s (PipeEvent.error e') =
                ({ inner := s.inner, closed := true },
                  [Event.error e']) := by
              simp [pipeStep, hc, throttleError]
            simp only [runPipe, hstep]
            rw [runPipe_closed _ rest rfl]
            simpa [nextValues, producedValues] using
              List.sublist_append_left s.inner.trailing_value.toList
                (producedValues rest)
        | complete =>
            have hstep : pipeStep (ε := ε) s PipeEvent.complete =
                ({ inner := (throttleComplete (ε := ε) s.inner).1,
                    closed := true },
                  (throttleComplete (ε := ε) s.inner).2) := by
              simp [pipeStep, hc]
            have hout := throttleComplete_out (ε := ε) s.inner
            simp only [runPipe, hstep]
            rw [runPipe_closed _ rest rfl]
            have hval : nextValues
                ((throttleComplete (ε := ε) s.inner).2 ++
                  ([] : List (Event α ε))) =
                s.inner.trailing_value.toList := by
              rw [List.append_nil, hout.1, nextValues_append,
                nextValues_map_next]
              simp [nextValues]
            show nextValues ((throttleComplete (ε := ε) s.inner).2 ++ []) ++
                (throttleComplete (ε := ε) s.inner).1.trailing_value.toList <+
                s.inner.trailing_value.toList ++
                  producedValues (PipeEvent.complete :: rest)
            rw [hval, hout.2.1]
            simpa using List.sublist_append_left
              s.inner.trailing_value.toList
              (producedValues (PipeEvent.complete :: rest))
        | fire t =>
            by_cases hf : s.inner.throttled = some t
            · have hstep : pipeStep (ε := ε) s (PipeEvent.fire t) =
                  ({ s with
                      inner :=
                        (throttleTimerExpiry (ε := ε) s.inner).1 },
                    (throttleTimerExpiry (ε := ε) s.inner).2) := by
                simp [pipeStep, hc, hf]
              have hout := throttleTimerExpiry_out (ε := ε) s.inner
              have hL1 :
                  (throttleTimerExpiry (ε := ε) s.inner).1.edge =
                    ThrottleEdge.Leading →
                  (throttleTimerExpiry (ε := ε)
                    s.inner).1.trailing_value = none := fun _ => hout.2.1
              have ihh := ih
                { s with
                    inner := (throttleTimerExpiry (ε := ε) s.inner).1 }
                hL1
              simp only [runPipe, hstep, nextValues_append]
              rw [hout.1, nextValues_map_next]
              have := ihh.append_left s.inner.trailing_value.toList
              simp only [hout.2.1, Option.toList_none, List.append_nil] at this
              simpa [producedValues, List.append_assoc] using this
            · have hstep : pipeStep (ε := ε) s (PipeEvent.fire t) =
                  (s, []) := by
                simp [pipeStep, hc, hf]
              simp only [runPipe, hstep]
              simpa [producedValues] using ih s hL

/-- C8 counterexample, at the granularity of the source's own critical
sections: the producer emits `next 5` then `error ()` on a Tailing
throttle; the scheduler's timer callback acquires the throttle lock after
`Subscriber::error` has forwarded the error but before its
`unsubscribe()` cancels the timer.  Since `error` clears neither
`trailing_value` nor `throttled`, the callback emits `next 5` after the
terminal — the downstream trace is `[error (), next 5]`, so the terminal
event is not the last delivery. -/
theorem throttle_terminal_last_cex :
    ¬ (∀ (edge : ThrottleEdge) (delay : Nat)
        (calls : List (ObserverCall Nat Unit))
        (fires tr : List (MicroEvent Nat Unit)),
        (∀ m ∈ fires, m.isFire = true) →
        Interleave (expandCalls calls) fires tr →
        terminalLast (runMicro (pipeInit edge delay) tr).2 = true) := by
  intro h
  have hI : Interleave
      (expandCalls [ObserverCall.next (ε := Unit) 5,
        ObserverCall.error ()])
      [MicroEvent.fire 0]
      [MicroEvent.nextCall 5, MicroEvent.errForward (),
        MicroEvent.fire 0, MicroEvent.unsub] :=
    Interleave.left (Interleave.left
      (Interleave.right (Interleave.left Interleave.nil)))
  have hrun := h ThrottleEdge.Tailing 1
    [ObserverCall.next 5, ObserverCall.error ()] [MicroEvent.fire 0]
    [MicroEvent.nextCall 5, MicroEvent.errForward (),
      MicroEvent.fire 0, MicroEvent.unsub]
    (by decide) hI
  exact absurd hrun (by decide)

/-- C8 (amended): within one Subscriber, the `next` values delivered
downstream are a subsequence of the values the producer emitted, in the
producer's order; and whenever each producer call on the `Subscriber` runs
atomically with respect to the throttle timer callbacks (no expiry
interleaves between a terminal's forward and its cascading unsubscribe),
the terminal event is the last delivery the downstream observer receives —
in particular a timer firing after such an atomic `error`/`complete` is
cancelled and delivers nothing.  Only a timer expiry racing into the
window between an error's forward and its unsubscribe (the
counterexample) can deliver a late `next`. -/
theorem throttle_pipeline_ordered_terminal_last {α ε : Type}
    (edge : ThrottleEdge) (delay : Nat)
    (events : List (PipeEvent α ε)) :
    terminalLast (runPipe (pipeInit edge delay) events).2 = true ∧
    nextValues (runPipe (pipeInit edge delay) events).2 <+
      producedValues events := by
  constructor
  · exact runPipe_terminalLast events _ rfl
  · have h := runPipe_sublist events (pipeInit edge delay) fun _ => rfl
    have h2 := (List.sublist_append_left
      (nextValues (runPipe (ε := ε) (pipeInit edge delay) events).2)
      (runPipe (ε := ε) (pipeInit edge delay)
        events).1.inner.trailing_value.toList).trans h
    simpa [pipeInit] using h2

end RxRust
